import Mathlib

/-!
Verification development for the minimal AI Calling Agent application
(`minimal_app.py`).  The endpoints are embedded shallowly: the on-disk
state (the `app/uploads` content directory and the `app/knowledge`
metadata directory) is modelled as association lists from file name to
content, and each endpoint is a pure function from state to
(result, state).
-/

/-- HTTP error as raised by `HTTPException(status_code=..., detail=...)`. -/
structure HTTPError where
  status_code : Nat
  detail : String
deriving Repr, DecidableEq

/-! ### Small file-store helpers (the modelled filesystem) -/

/-- Look up the value stored under key `k` (the content of file `k`);
`none` models `os.path.exists(...) == False`. -/
def findVal {β : Type} : List (String × β) → String → Option β
  | [], _ => none
  | p :: ps, k => if p.1 = k then some p.2 else findVal ps k

/-- Write file `k` with content `v`: overwrite an existing entry in place,
otherwise append a new directory entry. -/
def setFile {β : Type} : List (String × β) → String → β → List (String × β)
  | [], k, v => [(k, v)]
  | p :: ps, k, v => if p.1 = k then (k, v) :: ps else p :: setFile ps k v

/-- `os.remove(k)` (as a no-op when the file is absent). -/
def removeFile {β : Type} (l : List (String × β)) (k : String) : List (String × β) :=
  l.filter (fun p => p.1 != k)

/-! ### The upload endpoint (`upload_document`, minimal_app.py lines 79-141) -/

/-- `allowed_extensions` from `upload_document`. -/
def allowed_extensions : List String := [".pdf", ".docx", ".xlsx", ".xls", ".csv", ".txt"]

/-- Index of the last occurrence of `c` in the list, counting from `i`. -/
def lastIndexOfAux (c : Char) : List Char → Nat → Option Nat
  | [], _ => none
  | x :: xs, i =>
    match lastIndexOfAux c xs (i + 1) with
    | some j => some j
    | none => if x = c then some i else none

/-- Index of the last occurrence of `c` (Python `str.rfind`, with `-1`
encoded as `none`). -/
def lastIndexOf (l : List Char) (c : Char) : Option Nat := lastIndexOfAux c l 0

/-- `os.path.splitext(p)[1]`: the extension starts at the last dot,
provided the dot lies after the last path separator and some character
strictly between the separator and the dot is not itself a dot
(so `".bashrc"` has no extension). -/
def splitext_ext (p : String) : String :=
  let l := p.toList
  let sepIndex : Int :=
    match lastIndexOf l '/' with
    | none => -1
    | some i => (i : Int)
  match lastIndexOf l '.' with
  | none => ""
  | some dotIndex =>
    if sepIndex < (dotIndex : Int) then
      if (List.range dotIndex).any
          (fun i => decide (sepIndex < (i : Int)) && (l.getD i '.' != '.')) then
        String.mk (l.drop dotIndex)
      else ""
    else ""

/-- Python `str.lower()` (ASCII): lower-case every character. -/
def str_lower (s : String) : String := String.mk (s.toList.map Char.toLower)

/-- Python `filename.replace(' ', '_')`: replace every space by an
underscore. -/
def replace_spaces (s : String) : String :=
  String.mk (s.toList.map (fun ch => if ch = ' ' then '_' else ch))

/-- The metadata record written by `upload_document` (lines 114-123). -/
structure Metadata where
  filename : String
  stored_filename : String
  path : String
  description : String
  category : String
  upload_time : Nat
  size : Nat
  extension : String
deriving Repr, DecidableEq

/-- A JSON scalar, enough for the metadata record. -/
inductive JsonValue where
  | str (s : String)
  | num (n : Nat)
deriving Repr, DecidableEq

/-- The JSON object `json.dump` writes for a metadata record: the keys in
dict-insertion order (lines 114-123 of minimal_app.py). -/
def metadataJson (m : Metadata) : List (String × JsonValue) :=
  [("filename", .str m.filename),
   ("stored_filename", .str m.stored_filename),
   ("path", .str m.path),
   ("description", .str m.description),
   ("category", .str m.category),
   ("upload_time", .num m.upload_time),
   ("size", .num m.size),
   ("extension", .str m.extension)]

/-- The modelled on-disk state: `app/uploads` (content files, path ↦ byte
size) and `app/knowledge` (metadata files, name ↦ parsed record). -/
structure FS where
  uploads : List (String × Nat)
  knowledge : List (String × Metadata)
deriving Repr, DecidableEq

/-- The empty state (fresh directories). -/
def fs0 : FS := ⟨[], []⟩

/-- Response body of a successful upload (lines 134-141). -/
structure UploadResponse where
  status : String
  message : String
  document_id : String
  filename : String
  category : String
  processing : Bool
deriving Repr, DecidableEq

/-- `safe_filename = f"{timestamp}_{file.filename.replace(' ', '_')}"` (line 103). -/
def safeFilename (timestamp : Nat) (filename : String) : String :=
  toString timestamp ++ "_" ++ replace_spaces filename

/-- `file_path = os.path.join("app/uploads", safe_filename)` (line 104). -/
def uploadPath (timestamp : Nat) (filename : String) : String :=
  "app/uploads/" ++ safeFilename timestamp filename

/-- `metadata_path` file name `f"{timestamp}_metadata.json"` (line 126). -/
def metadataName (timestamp : Nat) : String :=
  toString timestamp ++ "_metadata.json"

/-- The metadata record built at lines 114-123 (after the content file has
been written, since `size` reads `os.path.getsize(file_path)`). -/
def uploadMetadata (fs : FS) (timestamp : Nat) (filename : String)
    (contentSize : Nat) (description : Option String) (category : String) :
    Metadata :=
  let uploads' := setFile fs.uploads (uploadPath timestamp filename) contentSize
  { filename := filename
    stored_filename := safeFilename timestamp filename
    path := uploadPath timestamp filename
    description := description.getD ""
    category := category
    upload_time := timestamp
    size := (findVal uploads' (uploadPath timestamp filename)).getD 0
    extension := str_lower (splitext_ext filename) }

/-- `POST /api/upload/document`.  `processorAvailable` models the module
flag `DOCUMENT_PROCESSOR_AVAILABLE`; `now` models `int(time.time())`;
`contentSize` is the byte size of the uploaded file. -/
def upload_document (processorAvailable : Bool) (fs : FS) (now : Nat)
    (filename : String) (contentSize : Nat) (description : Option String)
    (category : String) : Except HTTPError UploadResponse × FS :=
  let file_ext := str_lower (splitext_ext filename)
  if file_ext ∉ allowed_extensions then
    (Except.error ⟨400,
      "Unsupported file type. Allowed types: " ++
        String.intercalate ", " allowed_extensions⟩, fs)
  else
    let uploads' := setFile fs.uploads (uploadPath now filename) contentSize
    let metadata := uploadMetadata fs now filename contentSize description category
    let knowledge' := setFile fs.knowledge (metadataName now) metadata
    (Except.ok
      { status := "success"
        message := "Document uploaded successfully"
        document_id := toString now
        filename := filename
        category := category
        processing := processorAvailable }, ⟨uploads', knowledge'⟩)

/-! ### The listing endpoint (`get_documents`, lines 144-174) -/

/-- One entry of the `GET /api/documents` response. -/
structure DocEntry where
  id : String
  filename : String
  description : String
  category : String
  upload_time : Nat
  size : Nat
  extension : String
deriving Repr, DecidableEq

/-- `metadata_file.stem.split("_")[0]`: the part of the file name before
the first underscore (every globbed name ends in `"_metadata.json"`, so
the first underscore always lies before the `.json` suffix removed by
`stem`). -/
def idOfName (name : String) : String :=
  String.mk (name.toList.takeWhile (fun c => c != '_'))

/-- Does the file name match the glob `*_metadata.json`? -/
def startsWithList : List Char → List Char → Bool
  | [], _ => true
  | _ :: _, [] => false
  | a :: as, b :: bs => a == b && startsWithList as bs

/-- Glob `*_metadata.json` (line 150). -/
def globMetadata (name : String) : Bool :=
  startsWithList "_metadata.json".toList.reverse name.toList.reverse

/-- The listing entry built from one metadata file (lines 159-167). -/
def docEntryOf (name : String) (m : Metadata) : DocEntry :=
  { id := idOfName name
    filename := m.filename
    description := m.description
    category := m.category
    upload_time := m.upload_time
    size := m.size
    extension := m.extension }

/-- The unsorted listing: every metadata file matching the glob whose
referenced content file still exists (lines 152-167). -/
def documentEntries (fs : FS) : List DocEntry :=
  fs.knowledge.filterMap fun p =>
    if globMetadata p.1 && (findVal fs.uploads p.2.path).isSome then
      some (docEntryOf p.1 p.2)
    else none

/-- Stable insertion for a descending sort on `upload_time`
(`documents.sort(key=lambda x: x["upload_time"], reverse=True)`). -/
def insertByTimeDesc (d : DocEntry) : List DocEntry → List DocEntry
  | [] => [d]
  | e :: es =>
    if e.upload_time ≤ d.upload_time then d :: e :: es
    else e :: insertByTimeDesc d es

/-- Stable descending sort on `upload_time` (line 172). -/
def sortByTimeDesc (l : List DocEntry) : List DocEntry :=
  l.foldr insertByTimeDesc []

/-- `GET /api/documents`. -/
def get_documents (fs : FS) : List DocEntry :=
  sortByTimeDesc (documentEntries fs)

/-! ### The delete endpoint (`delete_document`, lines 176-199) -/

/-- Response body of a successful delete (line 197). -/
structure DeleteResponse where
  status : String
  message : String
deriving Repr, DecidableEq

/-- `DELETE /api/documents/{document_id}`. -/
def delete_document (fs : FS) (document_id : String) :
    Except HTTPError DeleteResponse × FS :=
  let metadata_name := document_id ++ "_metadata.json"
  match findVal fs.knowledge metadata_name with
  | none => (Except.error ⟨404, "Document not found"⟩, fs)
  | some metadata =>
      let uploads' := removeFile fs.uploads metadata.path
      let knowledge' := removeFile fs.knowledge metadata_name
      (Except.ok ⟨"success", "Document deleted successfully"⟩,
        ⟨uploads', knowledge'⟩)

/-! ### The call-simulation endpoint (`simulate_call`, lines 256-288) -/

/-- The supported call languages (line 269). -/
def supported_languages : List String := ["en", "hi", "mr", "te"]

/-- The supported TTS engines (line 273). -/
def supported_engines : List String := ["auto", "google", "indic"]

/-- The call-simulation result (lines 280-288); the only call state the
minimal app produces. -/
structure CallResult where
  call_id : String
  status : String
  phone_number : String
  language : String
  engine : String
  duration : Nat
  message : String
deriving Repr, DecidableEq

/-- `POST /api/call/simulate`; `now` models `int(time.time())` after the
simulated processing delay. -/
def simulate_call (now : Nat) (phone_number language engine : String) :
    Except HTTPError CallResult :=
  if language ∉ supported_languages then
    Except.error ⟨400, "Unsupported language"⟩
  else if engine ∉ supported_engines then
    Except.error ⟨400, "Unsupported TTS engine"⟩
  else
    Except.ok
      { call_id := "sim-" ++ toString now
        status := "completed"
        phone_number := phone_number
        language := language
        engine := engine
        duration := 15
        message := "Call simulation completed successfully using " ++ engine ++
          " TTS engine in " ++ language ++ " language." }

/-! ### The knowledge-question endpoint (`answer_question`, lines 230-253) -/

/-- The answer produced by the knowledge base (spec §3 KnowledgeAnswer). -/
structure KnowledgeAnswer where
  answer : String
  confidence : Rat
  sources : List String
  question_type : String

/-- Modelled from the spec: the module `app.document_processor` (the
Knowledge Store / Retrieval Engine) is not among the sources; per the
spec, it keeps the knowledge derived from every document ever processed
(`processed_knowledge`, empty exactly when no document has ever been
processed), the documents still pending ingestion, and a replaceable
retrieval strategy producing a KnowledgeAnswer (spec §4.2, §9). -/
structure DocumentProcessor where
  pending_documents : List String
  processed_knowledge : List String
  answerFn : List String → String → KnowledgeAnswer

/-- Modelled from the spec: `process_all_documents` ingests every pending
document into the processed knowledge (spec §4.1 `reingest_all`). -/
def process_all_documents (dp : DocumentProcessor) : DocumentProcessor :=
  { dp with
    processed_knowledge := dp.processed_knowledge ++ dp.pending_documents
    pending_documents := [] }

/-- Modelled from the spec: `get_answer_from_knowledge_base` runs the
retrieval strategy over the processed knowledge (spec §4.2). -/
def get_answer_from_knowledge_base (dp : DocumentProcessor) (question : String) :
    KnowledgeAnswer :=
  dp.answerFn dp.processed_knowledge question

/-- Response of `POST /api/knowledge/question`: the knowledge-base result
dict with the request's `question` and `language` keys added
(lines 247-253). -/
structure QuestionResponse where
  answer : String
  confidence : Rat
  sources : List String
  question_type : String
  question : String
  language : String

/-- `POST /api/knowledge/question`. -/
def answer_question (processorAvailable : Bool) (dp : DocumentProcessor)
    (question : String) (language : String) :
    Except HTTPError (QuestionResponse × DocumentProcessor) :=
  if !processorAvailable then
    Except.error ⟨400, "Document processor not available"⟩
  else
    let dp1 := if dp.processed_knowledge.isEmpty then process_all_documents dp else dp
    let result := get_answer_from_knowledge_base dp1 question
    Except.ok
      ({ answer := result.answer
         confidence := result.confidence
         sources := result.sources
         question_type := result.question_type
         question := question
         language := language }, dp1)

/-! ### Concrete fixtures used by witnesses -/

/-- A metadata record as written by an upload at unix second 500. -/
def mA : Metadata :=
  { filename := "a.pdf"
    stored_filename := "500_a.pdf"
    path := "app/uploads/500_a.pdf"
    description := ""
    category := "general"
    upload_time := 500
    size := 3
    extension := ".pdf" }

/-- A state holding exactly one document (content plus metadata). -/
def fsDel : FS := ⟨[("app/uploads/500_a.pdf", 3)], [("500_metadata.json", mA)]⟩

/-- A concrete document processor: one pending document, nothing processed
yet, and a constant retrieval strategy. -/
def dpW : DocumentProcessor :=
  ⟨["company_info.pdf"], [],
   fun _ _ => ⟨"No relevant information found", 0, [], "general"⟩⟩

/-! ### File-store lemmas -/

theorem findVal_setFile_self {β : Type} (l : List (String × β)) (k : String) (v : β) :
    findVal (setFile l k v) k = some v := by
  induction l with
  | nil => simp [setFile, findVal]
  | cons p ps ih =>
    by_cases h : p.1 = k
    · simp [setFile, h, findVal]
    · simp [setFile, h, findVal, ih]

theorem findVal_eq_none {β : Type} {l : List (String × β)} {k : String}
    (h : ∀ p ∈ l, p.1 ≠ k) : findVal l k = none := by
  induction l with
  | nil => rfl
  | cons p ps ih =>
    have hp : p.1 ≠ k := h p (List.mem_cons_self p ps)
    simp only [findVal, if_neg hp]
    exact ih fun q hq => h q (List.mem_cons_of_mem p hq)

theorem findVal_append_right {β : Type} {l₁ : List (String × β)} (l₂ : List (String × β))
    {k : String} (h : findVal l₁ k = none) :
    findVal (l₁ ++ l₂) k = findVal l₂ k := by
  induction l₁ with
  | nil => rfl
  | cons p ps ih =>
    simp only [findVal] at h ⊢
    by_cases hp : p.1 = k
    · rw [if_pos hp] at h; cases h
    · rw [if_neg hp] at h ⊢
      exact ih h

theorem setFile_of_forall_ne {β : Type} {l : List (String × β)} {k : String} (v : β)
    (h : ∀ p ∈ l, p.1 ≠ k) : setFile l k v = l ++ [(k, v)] := by
  induction l with
  | nil => rfl
  | cons p ps ih =>
    have hp : p.1 ≠ k := h p (List.mem_cons_self p ps)
    simp only [setFile, if_neg hp, List.cons_append, List.cons.injEq, true_and]
    exact ih fun q hq => h q (List.mem_cons_of_mem p hq)

theorem mem_of_mem_removeFile {β : Type} {l : List (String × β)} {k : String}
    {p : String × β} (h : p ∈ removeFile l k) : p ∈ l ∧ p.1 ≠ k := by
  have h' := List.mem_filter.mp h
  refine ⟨h'.1, ?_⟩
  simpa using h'.2

theorem findVal_removeFile_self {β : Type} (l : List (String × β)) (k : String) :
    findVal (removeFile l k) k = none :=
  findVal_eq_none fun _ hp => (mem_of_mem_removeFile hp).2

/-! ### Sorting lemmas (the stable descending sort of the listing) -/

theorem perm_insertByTimeDesc (d : DocEntry) (l : List DocEntry) :
    List.Perm (insertByTimeDesc d l) (d :: l) := by
  induction l with
  | nil => exact List.Perm.refl _
  | cons e es ih =>
    simp only [insertByTimeDesc]
    split
    · exact List.Perm.refl _
    · exact (ih.cons e).trans (List.Perm.swap d e es)

theorem perm_sortByTimeDesc (l : List DocEntry) :
    List.Perm (sortByTimeDesc l) l := by
  induction l with
  | nil => exact List.Perm.refl _
  | cons d es ih =>
    exact (perm_insertByTimeDesc d (sortByTimeDesc es)).trans (ih.cons d)

theorem pairwise_insertByTimeDesc {d : DocEntry} {l : List DocEntry}
    (h : l.Pairwise (fun a b => b.upload_time ≤ a.upload_time)) :
    (insertByTimeDesc d l).Pairwise (fun a b => b.upload_time ≤ a.upload_time) := by
  induction l with
  | nil => simp [insertByTimeDesc]
  | cons e es ih =>
    rw [List.pairwise_cons] at h
    simp only [insertByTimeDesc]
    split
    case isTrue hle =>
      rw [List.pairwise_cons]
      refine ⟨?_, List.pairwise_cons.mpr h⟩
      intro b hb
      rcases List.mem_cons.mp hb with rfl | hbes
      · exact hle
      · exact le_trans (h.1 b hbes) hle
    case isFalse hlt =>
      rw [List.pairwise_cons]
      refine ⟨?_, ih h.2⟩
      intro b hb
      rcases List.mem_cons.mp ((perm_insertByTimeDesc d es).mem_iff.mp hb) with rfl | hbes
      · exact Nat.le_of_not_le hlt
      · exact h.1 b hbes

theorem pairwise_sortByTimeDesc (l : List DocEntry) :
    (sortByTimeDesc l).Pairwise (fun a b => b.upload_time ≤ a.upload_time) := by
  induction l with
  | nil => simp [sortByTimeDesc]
  | cons d es ih => exact pairwise_insertByTimeDesc ih

/-! ### Name lemmas (glob and id extraction) -/

theorem startsWithList_self_append (xs ys : List Char) :
    startsWithList xs (xs ++ ys) = true := by
  induction xs with
  | nil => rfl
  | cons a as ih => simp [startsWithList, ih]

theorem globMetadata_append (s : String) :
    globMetadata (s ++ "_metadata.json") = true := by
  unfold globMetadata
  have h : (s ++ "_metadata.json").toList = s.toList ++ "_metadata.json".toList := rfl
  rw [h, List.reverse_append]
  exact startsWithList_self_append _ _

theorem mem_toDigitsCore {fuel n : Nat} {ds : List Char} {c : Char}
    (h : c ∈ Nat.toDigitsCore 10 fuel n ds) :
    c ∈ ds ∨ ∃ m, m < 10 ∧ c = Nat.digitChar m := by
  induction fuel generalizing n ds with
  | zero => exact .inl h
  | succ fuel ih =>
    rw [Nat.toDigitsCore] at h
    by_cases hz : n / 10 = 0
    · rw [if_pos hz] at h
      rcases List.mem_cons.mp h with rfl | hds
      · exact .inr ⟨n % 10, Nat.mod_lt n (by norm_num), rfl⟩
      · exact .inl hds
    · rw [if_neg hz] at h
      rcases ih h with hds | hd
      · rcases List.mem_cons.mp hds with rfl | hds'
        · exact .inr ⟨n % 10, Nat.mod_lt n (by norm_num), rfl⟩
        · exact .inl hds'
      · exact .inr hd

theorem repr_no_underscore (n : Nat) : ∀ c ∈ (Nat.repr n).toList, c ≠ '_' := by
  intro c hc
  have hmem : c ∈ Nat.toDigits 10 n := hc
  rcases mem_toDigitsCore hmem with h | ⟨m, hm, rfl⟩
  · cases h
  · have hd : ∀ m', m' < 10 → Nat.digitChar m' ≠ '_' := by decide
    exact hd m hm

theorem takeWhile_append_of_all {p : Char → Bool} {xs : List Char} (ys : List Char)
    (h : ∀ x ∈ xs, p x = true) :
    (xs ++ ys).takeWhile p = xs ++ ys.takeWhile p := by
  induction xs with
  | nil => rfl
  | cons a as ih =>
    simp only [List.cons_append, List.takeWhile_cons,
      h a (List.mem_cons_self a as), if_true, List.cons.injEq, true_and]
    exact ih fun x hx => h x (List.mem_cons_of_mem a hx)

theorem idOfName_metadataName (t : Nat) :
    idOfName (metadataName t) = toString t := by
  unfold idOfName metadataName
  have h1 : (toString t ++ "_metadata.json").toList
      = (Nat.repr t).toList ++ "_metadata.json".toList := rfl
  rw [h1, takeWhile_append_of_all _ ?hall]
  case hall =>
    intro x hx
    simpa using repr_no_underscore t x hx
  have h2 : ("_metadata.json".toList.takeWhile (fun c => c != '_')) = [] := rfl
  rw [h2, List.append_nil]
  rfl

/-! ### The successful-upload shape -/

theorem upload_document_eq_ok (pa : Bool) (fs : FS) (now : Nat) (filename : String)
    (contentSize : Nat) (d : Option String) (c : String)
    (hext : str_lower (splitext_ext filename) ∈ allowed_extensions) :
    upload_document pa fs now filename contentSize d c =
      (Except.ok
        { status := "success"
          message := "Document uploaded successfully"
          document_id := toString now
          filename := filename
          category := c
          processing := pa },
       ⟨setFile fs.uploads (uploadPath now filename) contentSize,
        setFile fs.knowledge (metadataName now)
          (uploadMetadata fs now filename contentSize d c)⟩) := by
  simp only [upload_document]
  rw [if_neg (not_not_intro hext)]

/-! ### Claim theorems -/

/-- C2: an upload whose (lower-cased) file extension is not among
`{.pdf, .docx, .xlsx, .xls, .csv, .txt}` is rejected with a 400 validation
error and the state is returned unchanged: no content file is saved and no
metadata record is written. -/
theorem upload_rejects_unsupported_extension (pa : Bool) (fs : FS) (now : Nat)
    (filename : String) (contentSize : Nat) (d : Option String) (c : String)
    (h : str_lower (splitext_ext filename) ∉ allowed_extensions) :
    upload_document pa fs now filename contentSize d c =
      (Except.error ⟨400,
        "Unsupported file type. Allowed types: .pdf, .docx, .xlsx, .xls, .csv, .txt"⟩,
       fs) := by
  simp only [upload_document]
  rw [if_pos h]
  rfl

/-- Witness for C2 at the concrete file `malware.exe`. -/
theorem upload_rejects_unsupported_extension_witness :
    str_lower (splitext_ext "malware.exe") ∉ allowed_extensions ∧
      upload_document true fs0 100 "malware.exe" 3 none "general" =
        (Except.error ⟨400,
          "Unsupported file type. Allowed types: .pdf, .docx, .xlsx, .xls, .csv, .txt"⟩,
         fs0) :=
  ⟨by decide,
   upload_rejects_unsupported_extension true fs0 100 "malware.exe" 3 none "general"
     (by decide)⟩

/-- C10: extension validation is case-insensitive — any file whose
extension lower-cases into the allowed set is accepted, and the metadata
record stores the lower-cased extension. -/
theorem upload_accepts_case_insensitive_extension (pa : Bool) (fs : FS) (now : Nat)
    (filename : String) (contentSize : Nat) (d : Option String) (c : String)
    (h : str_lower (splitext_ext filename) ∈ allowed_extensions) :
    ∃ r fs', upload_document pa fs now filename contentSize d c = (Except.ok r, fs')
      ∧ ∃ m, findVal fs'.knowledge (metadataName now) = some m
          ∧ m.extension = str_lower (splitext_ext filename) := by
  refine ⟨_, _, upload_document_eq_ok pa fs now filename contentSize d c h, ?_⟩
  exact ⟨uploadMetadata fs now filename contentSize d c,
    findVal_setFile_self _ _ _, rfl⟩

/-- Witness for C10 at the concrete file `report.PDF`. -/
theorem upload_accepts_case_insensitive_extension_witness :
    str_lower (splitext_ext "report.PDF") ∈ allowed_extensions ∧
      ∃ r fs', upload_document true fs0 200 "report.PDF" 7 none "general" =
          (Except.ok r, fs')
        ∧ ∃ m, findVal fs'.knowledge (metadataName 200) = some m
            ∧ m.extension = str_lower (splitext_ext "report.PDF") :=
  ⟨by decide,
   upload_accepts_case_insensitive_extension true fs0 200 "report.PDF" 7 none "general"
     (by decide)⟩

/-- C6 (counterexample): the metadata record persisted by a concrete
successful upload has no `status` key, so its field set is not the claimed
nine-field set. -/
theorem upload_metadata_lacks_status_field :
    ∃ m, findVal (upload_document true fs0 100 "a.pdf" 3 none "general").2.knowledge
        "100_metadata.json" = some m
      ∧ "status" ∉ (metadataJson m).map Prod.fst := by
  refine ⟨uploadMetadata fs0 100 "a.pdf" 3 none "general", by decide, by decide⟩

/-- C6 (amended): every successful upload persists a metadata record whose
JSON object has exactly the keys
`{filename, stored_filename, path, description, category, upload_time,
size, extension}` (in that order) — there is no `status` field. -/
theorem upload_metadata_record_fields (pa : Bool) (fs : FS) (now : Nat)
    (filename : String) (contentSize : Nat) (d : Option String) (c : String)
    (h : str_lower (splitext_ext filename) ∈ allowed_extensions) :
    ∃ r fs', upload_document pa fs now filename contentSize d c = (Except.ok r, fs')
      ∧ ∃ m, findVal fs'.knowledge (metadataName now) = some m
          ∧ (metadataJson m).map Prod.fst =
              ["filename", "stored_filename", "path", "description", "category",
               "upload_time", "size", "extension"] := by
  refine ⟨_, _, upload_document_eq_ok pa fs now filename contentSize d c h, ?_⟩
  exact ⟨uploadMetadata fs now filename contentSize d c,
    findVal_setFile_self _ _ _, rfl⟩

/-- Witness for the amended C6 at the concrete file `notes.txt`. -/
theorem upload_metadata_record_fields_witness :
    str_lower (splitext_ext "notes.txt") ∈ allowed_extensions ∧
      ∃ r fs', upload_document true fs0 300 "notes.txt" 11 (some "desc") "faq" =
          (Except.ok r, fs')
        ∧ ∃ m, findVal fs'.knowledge (metadataName 300) = some m
            ∧ (metadataJson m).map Prod.fst =
                ["filename", "stored_filename", "path", "description", "category",
                 "upload_time", "size", "extension"] :=
  ⟨by decide,
   upload_metadata_record_fields true fs0 300 "notes.txt" 11 (some "desc") "faq"
     (by decide)⟩

/-- C1 (code evidence): two documents uploaded within the same second
(unix time 100) both succeed, but they receive the same `document_id`
`"100"`, the second metadata write overwrites the first, and the listing
then contains only the second document. -/
theorem same_second_uploads_collide :
    ((upload_document true fs0 100 "a.pdf" 3 none "general").1.toOption.map
        UploadResponse.document_id = some "100")
    ∧ ((upload_document true
          (upload_document true fs0 100 "a.pdf" 3 none "general").2
          100 "b.pdf" 4 none "general").1.toOption.map
        UploadResponse.document_id = some "100")
    ∧ ((get_documents (upload_document true
          (upload_document true fs0 100 "a.pdf" 3 none "general").2
          100 "b.pdf" 4 none "general").2).map DocEntry.filename = ["b.pdf"])
    ∧ ((get_documents (upload_document true
          (upload_document true fs0 100 "a.pdf" 3 none "general").2
          100 "b.pdf" 4 none "general").2).map DocEntry.id = ["100"]) := by
  refine ⟨by decide, by decide, by decide, by decide⟩

/-- C4: the listing returns exactly the (glob-matched) metadata records
whose referenced content file still exists, and the output is ordered by
`upload_time` descending. -/
theorem get_documents_exact_and_sorted (fs : FS) :
    (∀ e, e ∈ get_documents fs ↔
      ∃ name m, (name, m) ∈ fs.knowledge ∧ globMetadata name = true
        ∧ (findVal fs.uploads m.path).isSome = true ∧ e = docEntryOf name m)
    ∧ (get_documents fs).Pairwise (fun a b => b.upload_time ≤ a.upload_time) := by
  constructor
  · intro e
    rw [get_documents, (perm_sortByTimeDesc _).mem_iff, documentEntries,
      List.mem_filterMap]
    constructor
    · rintro ⟨⟨name, m⟩, hmem, hf⟩
      by_cases hcond : (globMetadata name && (findVal fs.uploads m.path).isSome) = true
      · rw [if_pos hcond] at hf
        have hgp : globMetadata name = true ∧
            (findVal fs.uploads m.path).isSome = true := by simpa using hcond
        exact ⟨name, m, hmem, hgp.1, hgp.2, (Option.some.inj hf).symm⟩
      · rw [if_neg hcond] at hf
        cases hf
    · rintro ⟨name, m, hmem, hg, hp, rfl⟩
      refine ⟨(name, m), hmem, ?_⟩
      rw [if_pos (by simp [hg, hp])]
  · exact pairwise_sortByTimeDesc _

/-- C3: deletion succeeds exactly when the metadata record exists; on
success it removes the content file and the metadata record together, and
a second delete of the same id fails with 404 Not Found. -/
theorem delete_document_spec (fs : FS) (id : String) :
    (findVal fs.knowledge (id ++ "_metadata.json") = none →
      delete_document fs id = (Except.error ⟨404, "Document not found"⟩, fs))
    ∧ ∀ m, findVal fs.knowledge (id ++ "_metadata.json") = some m →
        ∃ fs', delete_document fs id =
            (Except.ok ⟨"success", "Document deleted successfully"⟩, fs')
          ∧ findVal fs'.knowledge (id ++ "_metadata.json") = none
          ∧ findVal fs'.uploads m.path = none
          ∧ delete_document fs' id = (Except.error ⟨404, "Document not found"⟩, fs') := by
  constructor
  · intro h
    simp only [delete_document, h]
  · intro m h
    refine ⟨⟨removeFile fs.uploads m.path,
             removeFile fs.knowledge (id ++ "_metadata.json")⟩, ?_, ?_, ?_, ?_⟩
    · simp only [delete_document, h]
    · exact findVal_removeFile_self _ _
    · exact findVal_removeFile_self _ _
    · simp only [delete_document, findVal_removeFile_self]

/-- Witness for C3 at a concrete one-document state. -/
theorem delete_document_spec_witness :
    ∃ fs', delete_document fsDel "500" =
        (Except.ok ⟨"success", "Document deleted successfully"⟩, fs')
      ∧ findVal fs'.knowledge ("500" ++ "_metadata.json") = none
      ∧ findVal fs'.uploads mA.path = none
      ∧ delete_document fs' "500" = (Except.error ⟨404, "Document not found"⟩, fs') :=
  (delete_document_spec fsDel "500").2 mA (by decide)

/-- C5: a call-simulation request with an unsupported language is rejected
with a 400 validation error, and no call result (the only call state of
the minimal app) is produced. -/
theorem simulate_call_rejects_unsupported_language (now : Nat)
    (phone_number language engine : String)
    (h : language ∉ supported_languages) :
    simulate_call now phone_number language engine =
        Except.error ⟨400, "Unsupported language"⟩
      ∧ ∀ r : CallResult,
          simulate_call now phone_number language engine ≠ Except.ok r := by
  have he : simulate_call now phone_number language engine =
      Except.error ⟨400, "Unsupported language"⟩ := by
    simp only [simulate_call]
    rw [if_pos h]
  exact ⟨he, fun r hr => by rw [he] at hr; cases hr⟩

/-- Witness for C5 at `language="fr"`. -/
theorem simulate_call_rejects_unsupported_language_witness :
    ("fr" ∉ supported_languages) ∧
      simulate_call 1 "+15551234567" "fr" "auto" =
        Except.error ⟨400, "Unsupported language"⟩ :=
  ⟨by decide,
   (simulate_call_rejects_unsupported_language 1 "+15551234567" "fr" "auto"
     (by decide)).1⟩

/-- C8: the language check precedes the engine check — for an unsupported
language the reported error is "Unsupported language" whatever the engine
is, in particular also when the engine is unsupported too. -/
theorem simulate_call_language_before_engine (now : Nat)
    (phone_number language engine : String)
    (h : language ∉ supported_languages) :
    simulate_call now phone_number language engine =
        Except.error ⟨400, "Unsupported language"⟩
      ∧ (engine ∉ supported_engines →
          simulate_call now phone_number language engine =
            Except.error ⟨400, "Unsupported language"⟩) := by
  have he : simulate_call now phone_number language engine =
      Except.error ⟨400, "Unsupported language"⟩ := by
    simp only [simulate_call]
    rw [if_pos h]
  exact ⟨he, fun _ => he⟩

/-- Witness for C8 with both language and engine unsupported. -/
theorem simulate_call_language_before_engine_witness :
    ("fr" ∉ supported_languages) ∧ ("bogus" ∉ supported_engines) ∧
      simulate_call 2 "+12025550100" "fr" "bogus" =
        Except.error ⟨400, "Unsupported language"⟩ :=
  ⟨by decide, by decide,
   (simulate_call_language_before_engine 2 "+12025550100" "fr" "bogus"
     (by decide)).2 (by decide)⟩

/-- C7: a knowledge question triggers a full re-ingest exactly when no
document has ever been processed, and the response is the knowledge-base
answer with the request's question and language echoed back unchanged. -/
theorem answer_question_reingests_and_echoes (dp : DocumentProcessor)
    (q lang : String) :
    ∃ resp dp',
      answer_question true dp q lang = Except.ok (resp, dp')
      ∧ resp.question = q ∧ resp.language = lang
      ∧ (dp.processed_knowledge.isEmpty = true → dp' = process_all_documents dp)
      ∧ (dp.processed_knowledge.isEmpty = false → dp' = dp)
      ∧ resp.answer = (get_answer_from_knowledge_base dp' q).answer
      ∧ resp.confidence = (get_answer_from_knowledge_base dp' q).confidence
      ∧ resp.sources = (get_answer_from_knowledge_base dp' q).sources
      ∧ resp.question_type = (get_answer_from_knowledge_base dp' q).question_type := by
  cases hE : dp.processed_knowledge.isEmpty with
  | true =>
    refine ⟨{ answer := (get_answer_from_knowledge_base (process_all_documents dp) q).answer
              confidence := (get_answer_from_knowledge_base (process_all_documents dp) q).confidence
              sources := (get_answer_from_knowledge_base (process_all_documents dp) q).sources
              question_type := (get_answer_from_knowledge_base (process_all_documents dp) q).question_type
              question := q
              language := lang },
       process_all_documents dp, ?_, rfl, rfl, fun _ => rfl,
       fun hF => by simp [hE] at hF, rfl, rfl, rfl, rfl⟩
    simp [answer_question, hE]
  | false =>
    refine ⟨{ answer := (get_answer_from_knowledge_base dp q).answer
              confidence := (get_answer_from_knowledge_base dp q).confidence
              sources := (get_answer_from_knowledge_base dp q).sources
              question_type := (get_answer_from_knowledge_base dp q).question_type
              question := q
              language := lang },
       dp, ?_, rfl, rfl, fun hT => by simp [hE] at hT,
       fun _ => rfl, rfl, rfl, rfl, rfl⟩
    simp [answer_question, hE]

/-- Witness for C7 at a concrete processor with nothing processed yet. -/
theorem answer_question_reingests_and_echoes_witness :
    ∃ resp dp',
      answer_question true dpW "What services do you offer?" "en" =
        Except.ok (resp, dp')
      ∧ resp.question = "What services do you offer?" ∧ resp.language = "en"
      ∧ (dpW.processed_knowledge.isEmpty = true → dp' = process_all_documents dpW)
      ∧ (dpW.processed_knowledge.isEmpty = false → dp' = dpW)
      ∧ resp.answer = (get_answer_from_knowledge_base dp' "What services do you offer?").answer
      ∧ resp.confidence = (get_answer_from_knowledge_base dp' "What services do you offer?").confidence
      ∧ resp.sources = (get_answer_from_knowledge_base dp' "What services do you offer?").sources
      ∧ resp.question_type = (get_answer_from_knowledge_base dp' "What services do you offer?").question_type :=
  answer_question_reingests_and_echoes dpW "What services do you offer?" "en"

/-- C9: the `document_id` returned by a successful upload is the id under
which the document appears in the listing and under which a subsequent
delete succeeds and removes it from the listing (no other metadata file
shares the id). -/
theorem upload_list_delete_roundtrip (pa : Bool) (fs : FS) (t : Nat)
    (filename : String) (contentSize : Nat) (d : Option String) (c : String)
    (hext : str_lower (splitext_ext filename) ∈ allowed_extensions)
    (hfresh : ∀ p ∈ fs.knowledge, idOfName p.1 ≠ toString t) :
    ∃ r fs1 fs2,
      upload_document pa fs t filename contentSize d c = (Except.ok r, fs1)
      ∧ r.document_id = toString t
      ∧ (∃ e ∈ get_documents fs1, e.id = toString t)
      ∧ delete_document fs1 r.document_id =
          (Except.ok ⟨"success", "Document deleted successfully"⟩, fs2)
      ∧ ∀ e ∈ get_documents fs2, e.id ≠ toString t := by
  have hname : idOfName (metadataName t) = toString t := idOfName_metadataName t
  have hnokey : ∀ p ∈ fs.knowledge, p.1 ≠ metadataName t := by
    intro p hp heq
    exact hfresh p hp (by rw [heq]; exact hname)
  have hk1 : setFile fs.knowledge (metadataName t)
        (uploadMetadata fs t filename contentSize d c)
      = fs.knowledge ++ [(metadataName t, uploadMetadata fs t filename contentSize d c)] :=
    setFile_of_forall_ne _ hnokey
  have hglob : globMetadata (metadataName t) = true := globMetadata_append (toString t)
  have hpath : (findVal (setFile fs.uploads (uploadPath t filename) contentSize)
      (uploadMetadata fs t filename contentSize d c).path).isSome = true := by
    have hpe : (uploadMetadata fs t filename contentSize d c).path
        = uploadPath t filename := rfl
    rw [hpe, findVal_setFile_self]
    rfl
  refine ⟨_, _,
    ⟨removeFile (setFile fs.uploads (uploadPath t filename) contentSize)
        (uploadMetadata fs t filename contentSize d c).path,
     removeFile (setFile fs.knowledge (metadataName t)
        (uploadMetadata fs t filename contentSize d c)) (metadataName t)⟩,
    upload_document_eq_ok pa fs t filename contentSize d c hext, rfl, ?hlist, ?hdel, ?hafter⟩
  case hlist =>
    refine ⟨docEntryOf (metadataName t) (uploadMetadata fs t filename contentSize d c),
      ?_, hname⟩
    rw [get_documents, (perm_sortByTimeDesc _).mem_iff, documentEntries,
      List.mem_filterMap]
    refine ⟨(metadataName t, uploadMetadata fs t filename contentSize d c), ?_, ?_⟩
    · show (metadataName t, uploadMetadata fs t filename contentSize d c)
        ∈ setFile fs.knowledge (metadataName t) (uploadMetadata fs t filename contentSize d c)
      rw [hk1]
      exact List.mem_append_right _ (List.mem_singleton_self _)
    · rw [if_pos (by simp [hglob, hpath])]
  case hdel =>
    have hfind1 : findVal
        (setFile fs.knowledge (metadataName t) (uploadMetadata fs t filename contentSize d c))
        (toString t ++ "_metadata.json")
        = some (uploadMetadata fs t filename contentSize d c) := by
      show findVal
        (setFile fs.knowledge (metadataName t) (uploadMetadata fs t filename contentSize d c))
        (metadataName t) = _
      exact findVal_setFile_self _ _ _
    simp only [delete_document, hfind1]
    rfl
  case hafter =>
    intro e he
    rw [get_documents, (perm_sortByTimeDesc _).mem_iff, documentEntries,
      List.mem_filterMap] at he
    obtain ⟨⟨name, m'⟩, hmem, hf⟩ := he
    have h1 := mem_of_mem_removeFile hmem
    have hmem2 : (name, m') ∈ fs.knowledge := by
      have h2 : (name, m') ∈ fs.knowledge
          ++ [(metadataName t, uploadMetadata fs t filename contentSize d c)] := by
        rw [← hk1]
        exact h1.1
      rcases List.mem_append.mp h2 with hin | hin
      · exact hin
      · exact absurd (congrArg Prod.fst (List.mem_singleton.mp hin)) h1.2
    by_cases hcond : (globMetadata name &&
        (findVal (removeFile (setFile fs.uploads (uploadPath t filename) contentSize)
          (uploadMetadata fs t filename contentSize d c).path) m'.path).isSome) = true
    · rw [if_pos hcond] at hf
      intro hid
      apply hfresh (name, m') hmem2
      have hide : e.id = idOfName name := by
        rw [← Option.some.inj hf]
        rfl
      rw [← hide]
      exact hid
    · rw [if_neg hcond] at hf
      cases hf

/-- Witness for C9 at the concrete file `guide.txt` in the empty state. -/
theorem upload_list_delete_roundtrip_witness :
    str_lower (splitext_ext "guide.txt") ∈ allowed_extensions ∧
      ∃ r fs1 fs2,
        upload_document true fs0 700 "guide.txt" 9 none "general" = (Except.ok r, fs1)
        ∧ r.document_id = toString 700
        ∧ (∃ e ∈ get_documents fs1, e.id = toString 700)
        ∧ delete_document fs1 r.document_id =
            (Except.ok ⟨"success", "Document deleted successfully"⟩, fs2)
        ∧ ∀ e ∈ get_documents fs2, e.id ≠ toString 700 :=
  ⟨by decide,
   upload_list_delete_roundtrip true fs0 700 "guide.txt" 9 none "general"
     (by decide) (by intro p hp; cases hp)⟩
